import Mathlib

/-!
Verification of the repkit.app request admission pipeline.

Shallow embedding of:
* the HMAC authentication and timestamp check of
  `src/app/api/ai/chat/standard/route.ts` (lines 87-154),
* the dual-bucket rate-limit admission decision of the same file
  (lines 156-184) and `src/lib/rate-limit.ts` (`checkRateLimitMemory`),
* the upstream error reclassification of the standard route
  (lines 264-294) and of `src/app/api/ai/chat/mini/route.ts`
  (lines 119-140),
* the tool schema validator of `src/unnamed/part_006`
  (`validateProperty`, `validateToolSchema`, `validateTools`,
  `getToolsHash`).

SHA-256 based primitives (the HMAC digest and the cache hash) are not
re-implemented; functions that use them take the digest function as an
explicit argument, so every statement is proved for an arbitrary digest
function, and collision-freeness appears as an explicit hypothesis where
a claim needs it.
-/

namespace Repkit

/-! ## Authentication (standard route, lines 102-154) -/

/-- Decimal integer parsing as JavaScript `parseInt` behaves on the
timestamp header values in scope: leading whitespace skipped, optional
sign, then a maximal run of decimal digits; `none` models `NaN`.
(The `0x` hex-prefix corner of `parseInt` is outside the inputs the
route receives and is not modelled.) -/
def parseIntJS (s : String) : Option Int :=
  let cs := s.toList.dropWhile Char.isWhitespace
  match cs with
  | '-' :: rest => (leadingDigits rest).map (fun n => -(n : Int))
  | '+' :: rest => (leadingDigits rest).map (fun n => (n : Int))
  | _ => (leadingDigits cs).map (fun n => (n : Int))
where
  /-- Value of the maximal leading digit run, `none` if there is none. -/
  leadingDigits (cs : List Char) : Option Nat :=
    let ds := cs.takeWhile Char.isDigit
    if ds.isEmpty then none
    else some (ds.foldl (fun a c => a * 10 + (c.toNat - 48)) 0)

/-- Outcome of the authentication phase of the standard route's `POST`
handler.  Each constructor corresponds to one early-return branch of
lines 106-154 of `src/app/api/ai/chat/standard/route.ts`. -/
inductive AuthResult where
  | missingAuthHeaders   -- 401 "Missing authentication headers"
  | staleTimestamp       -- 401 "Request timestamp invalid or expired"
  | serverConfigError    -- 500 "Server configuration error"
  | invalidSignature     -- 401 "Invalid request signature"
  | authenticated        -- continue past the auth phase
deriving DecidableEq, Repr

/-- Authentication phase of the standard route (lines 102-154).
`hmacHex secret payload` stands for
`createHmac("sha256", secret).update(payload).digest("hex")`.
`signature` and `timestamp` are the trimmed header values (`none` when
the header is absent); an empty trimmed value is falsy in JS, hence
also "missing".  `bodyText` is the raw request body text, used directly
as the signed payload (the route deliberately does not re-serialize the
parsed body).  `now` is `Date.now()` in milliseconds, the timestamp
header is in seconds (the code multiplies by 1000). -/
def authCheck (hmacHex : String → String → String)
    (signature timestamp : Option String) (bodyText : String)
    (now : Int) (secret : Option String) : AuthResult :=
  match signature, timestamp with
  | some sig, some ts =>
    if sig = "" ∨ ts = "" then .missingAuthHeaders
    else
      match parseIntJS ts with
      | none => .staleTimestamp
      | some requestTime =>
        let age := now - requestTime * 1000
        if age < 0 ∨ age > 5 * 60 * 1000 then .staleTimestamp
        else
          match secret with
          | none => .serverConfigError
          | some sec =>
            if sec = "" then .serverConfigError
            else if sig = hmacHex sec (bodyText ++ ts) then .authenticated
            else .invalidSignature
  | _, _ => .missingAuthHeaders

/-! ## Rate limiting (`src/lib/rate-limit.ts`, in-process store) -/

/-- Mirror of `RateLimitEntry` (rate-limit.ts lines 12-15). -/
structure RateLimitEntry where
  count : Nat
  resetAt : Int
deriving DecidableEq, Repr

/-- Mirror of `RateLimitInfo` (rate-limit.ts lines 17-22). -/
structure RateLimitInfo where
  allowed : Bool
  limit : Nat
  remaining : Int
  resetAt : Int
deriving DecidableEq, Repr

/-- The window length `RATE_LIMITS.WINDOW_MS` (one hour in ms). -/
def WINDOW_MS : Int := 60 * 60 * 1000

/-- Association-list model of the JS `Map` used by `rateLimitStore`. -/
def storeGet (store : List (String × RateLimitEntry)) (k : String) :
    Option RateLimitEntry :=
  (store.find? (fun e => e.1 == k)).map (·.2)

/-- `Map.set`: replace the binding for `k` if present, else append. -/
def storeSet (store : List (String × RateLimitEntry)) (k : String)
    (v : RateLimitEntry) : List (String × RateLimitEntry) :=
  match store with
  | [] => [(k, v)]
  | (k', v') :: rest =>
    if k' == k then (k, v) :: rest else (k', v') :: storeSet rest k v

/-- Module-level mutable state of rate-limit.ts: the store map plus the
`lastCleanupAt` stamp used by the lazy cleanup. -/
structure RLState where
  store : List (String × RateLimitEntry)
  lastCleanupAt : Int
deriving DecidableEq, Repr

/-- Mirror of `cleanupExpired` (rate-limit.ts lines 59-69): at most once
every five minutes, drop every entry with `now > entry.resetAt`. -/
def cleanupExpired (now : Int) (st : RLState) : RLState :=
  if now - st.lastCleanupAt < 5 * 60 * 1000 then st
  else
    { store := st.store.filter (fun e => !(decide (now > e.2.resetAt))),
      lastCleanupAt := now }

/-- Mirror of `checkRateLimitMemory` (rate-limit.ts lines 95-133),
with the mutable module state passed explicitly. -/
def checkRateLimitMemory (identifier : String) (limit : Nat) (now : Int)
    (st : RLState) : RateLimitInfo × RLState :=
  let st1 := cleanupExpired now st
  -- initialize or reset if the window expired
  let fresh : RateLimitEntry := { count := 0, resetAt := now + WINDOW_MS }
  let entrySt :=
    match storeGet st1.store identifier with
    | some e =>
      if now > e.resetAt then
        (fresh, { st1 with store := storeSet st1.store identifier fresh })
      else (e, st1)
    | none => (fresh, { st1 with store := storeSet st1.store identifier fresh })
  let entry := entrySt.1
  let st2 := entrySt.2
  if entry.count ≥ limit then
    ({ allowed := false, limit := limit, remaining := 0,
       resetAt := entry.resetAt }, st2)
  else
    let e2 : RateLimitEntry := { count := entry.count + 1, resetAt := entry.resetAt }
    ({ allowed := true, limit := limit, remaining := (limit : Int) - (e2.count : Int),
       resetAt := e2.resetAt },
     { st2 with store := storeSet st2.store identifier e2 })

/-! ## Admission decision (standard route, lines 156-184) -/

/-- Retry-After seconds: `Math.max(0, Math.ceil((resetAt - now) / 1000))`.
`Int.fdiv` is floor division, so `(a + 999).fdiv 1000` is `⌈a / 1000⌉`. -/
def retryAfterSeconds (resetAt now : Int) : Int :=
  max 0 ((resetAt - now + 999).fdiv 1000)

/-- The violated-bucket selection and 429 payload of route lines 160-184:
`tokenRate && !tokenRate.allowed ? tokenRate : !ipRate.allowed ? ipRate : null`,
paired with the Retry-After value computed from the selected bucket.
`none` means the request proceeds. -/
def admission (tokenRate : Option RateLimitInfo) (ipRate : RateLimitInfo)
    (now : Int) : Option (RateLimitInfo × Int) :=
  let violated : Option RateLimitInfo :=
    match tokenRate with
    | some tr =>
      if tr.allowed = false then some tr
      else if ipRate.allowed = false then some ipRate
      else none
    | none => if ipRate.allowed = false then some ipRate else none
  violated.map (fun v => (v, retryAfterSeconds v.resetAt now))

/-! ## Upstream error reclassification -/

/-- Status returned by the standard route for an upstream error of
status `s` (route lines 280-293): 429 becomes 503, everything else is
passed through unchanged. -/
def standardUpstreamStatus (s : Nat) : Nat :=
  if s = 429 then 503 else s

/-- The `retryable` flag of the standard route's error body (lines
278-285): `!isClientError` where
`isClientError = s >= 400 && s < 500 && s !== 429`. -/
def standardUpstreamRetryable (s : Nat) : Bool :=
  !(decide (400 ≤ s) && decide (s < 500) && !(s == 429))

/-- Status returned by the mini route for an upstream error of status
`s` (mini route line 138): 429 becomes 503, everything else 500. -/
def miniUpstreamStatus (s : Nat) : Nat :=
  if s = 429 then 503 else 500

/-! ## Theorems: authentication -/

/-- Under present headers, a fresh timestamp and a configured secret,
`authCheck` reduces to the signature comparison of route line 142. -/
theorem authCheck_reduces (hmacHex : String → String → String)
    (sig ts bodyText : String) (now : Int) (sec : String) (requestTime : Int)
    (hsig : sig ≠ "") (hts : ts ≠ "") (hsec : sec ≠ "")
    (hparse : parseIntJS ts = some requestTime)
    (hlo : 0 ≤ now - requestTime * 1000)
    (hhi : now - requestTime * 1000 ≤ 5 * 60 * 1000) :
    authCheck hmacHex (some sig) (some ts) bodyText now (some sec)
      = (if sig = hmacHex sec (bodyText ++ ts) then .authenticated
         else .invalidSignature) := by
  have hcond : ¬(sig = "" ∨ ts = "") := by rintro (h | h); exacts [hsig h, hts h]
  have hage : ¬(now - requestTime * 1000 < 0
      ∨ now - requestTime * 1000 > 5 * 60 * 1000) := by
    rintro (h | h) <;> omega
  simp only [authCheck, if_neg hcond, hparse, if_neg hage, if_neg hsec]

/-- Claim C1: with both auth headers present, the timestamp fresh and a
secret configured, verification succeeds iff the supplied signature
equals the digest of the secret over the exact raw body text
concatenated with the timestamp string (the route never re-serializes
the body); consequently a mutation of body or timestamp whose digest
differs from the original's (the HMAC collision-freeness assumption,
made explicit as a hypothesis) is rejected as an invalid signature
(HTTP 401).  Proved for an arbitrary digest function `hmacHex`. -/
theorem hmac_exact_payload_iff (hmacHex : String → String → String)
    (sig ts bodyText : String) (now : Int) (sec : String) (requestTime : Int)
    (hsig : sig ≠ "") (hts : ts ≠ "") (hsec : sec ≠ "")
    (hparse : parseIntJS ts = some requestTime)
    (hlo : 0 ≤ now - requestTime * 1000)
    (hhi : now - requestTime * 1000 ≤ 5 * 60 * 1000) :
    (authCheck hmacHex (some sig) (some ts) bodyText now (some sec) = .authenticated
       ↔ sig = hmacHex sec (bodyText ++ ts))
    ∧ (∀ bodyText2 ts2 requestTime2, ts2 ≠ "" →
         parseIntJS ts2 = some requestTime2 →
         0 ≤ now - requestTime2 * 1000 →
         now - requestTime2 * 1000 ≤ 5 * 60 * 1000 →
         hmacHex sec (bodyText2 ++ ts2) ≠ hmacHex sec (bodyText ++ ts) →
         sig = hmacHex sec (bodyText ++ ts) →
         authCheck hmacHex (some sig) (some ts2) bodyText2 now (some sec)
           = .invalidSignature) := by
  constructor
  · rw [authCheck_reduces hmacHex sig ts bodyText now sec requestTime hsig hts hsec
        hparse hlo hhi]
    constructor
    · intro h
      by_contra hne
      rw [if_neg hne] at h
      exact AuthResult.noConfusion h
    · intro h; rw [if_pos h]
  · intro bodyText2 ts2 requestTime2 hts2 hparse2 hlo2 hhi2 hdig hsigeq
    rw [authCheck_reduces hmacHex sig ts2 bodyText2 now sec requestTime2 hsig hts2
        hsec hparse2 hlo2 hhi2]
    rw [if_neg]
    intro h
    exact hdig (by rw [← h, hsigeq])

/-- Claim C1 witness: the theorem applied at a concrete digest function
and request. -/
theorem hmac_exact_payload_iff_witness :
    authCheck (fun a b => a ++ "/" ++ b) (some "k/body1700") (some "1700") "body"
        1700000 (some "k") = .authenticated
    ∧ authCheck (fun a b => a ++ "/" ++ b) (some "k/body1700") (some "1700") "bodyX"
        1700000 (some "k") = .invalidSignature := by
  have h := hmac_exact_payload_iff (fun a b => a ++ "/" ++ b) "k/body1700" "1700"
      "body" 1700000 "k" 1700 (by decide) (by decide) (by decide) (by decide)
      (by decide) (by decide)
  exact ⟨h.1.mpr (by decide),
    h.2 "bodyX" "1700" 1700 (by decide) (by decide) (by decide) (by decide)
      (by decide) (by decide)⟩

/-- Claim C3 counterexample: a timestamp one second in the future
(timestamp header 10001 s, server clock 10000000 ms) is within the
claimed symmetric five-minute window on both sides, yet the route
rejects it as stale-or-future (HTTP 401). -/
theorem timestamp_window_cex :
    authCheck (fun a b => a ++ b) (some "s") (some "10001") "b" 10000000 (some "k")
        = .staleTimestamp
    ∧ (10001 * 1000 - 10000000 : Int) ≤ 5 * 60 * 1000
    ∧ (10000000 - 10001 * 1000 : Int) ≤ 5 * 60 * 1000 := by
  exact ⟨by decide, by decide, by decide⟩

/-- Claim C3 (amended): the timestamp check is one-sided, not symmetric.
With both headers present, the route answers the stale-or-future 401
iff the timestamp fails to parse, or lies in the future
(`now - ts*1000 < 0`), or is more than five minutes in the past
(`now - ts*1000 > 300000`); every future timestamp is rejected. -/
theorem timestamp_window_one_sided (hmacHex : String → String → String)
    (sig ts bodyText : String) (now : Int) (secret : Option String)
    (hsig : sig ≠ "") (hts : ts ≠ "") :
    authCheck hmacHex (some sig) (some ts) bodyText now secret = .staleTimestamp
      ↔ (parseIntJS ts = none
         ∨ ∃ requestTime, parseIntJS ts = some requestTime
             ∧ (now - requestTime * 1000 < 0
                ∨ now - requestTime * 1000 > 5 * 60 * 1000)) := by
  have hcond : ¬(sig = "" ∨ ts = "") := by rintro (h | h); exacts [hsig h, hts h]
  simp only [authCheck, if_neg hcond]
  cases hp : parseIntJS ts with
  | none => simp
  | some rt =>
    by_cases hage : now - rt * 1000 < 0 ∨ now - rt * 1000 > 5 * 60 * 1000
    · simp only [if_pos hage]
      simp
      omega
    · simp only [if_neg hage]
      cases secret with
      | none =>
        simp
        omega
      | some sec =>
        by_cases hsec : sec = "" <;>
          by_cases hs : sig = hmacHex sec (bodyText ++ ts) <;>
          simp [hsec, hs] <;>
          omega

/-- Claim C3 (amended) witness: the amended theorem applied to a
timestamp far in the past. -/
theorem timestamp_window_one_sided_witness :
    authCheck (fun a b => a ++ b) (some "s") (some "1") "b" 1000000000 none
      = .staleTimestamp := by
  exact (timestamp_window_one_sided (fun a b => a ++ b) "s" "1" "b" 1000000000 none
      (by decide) (by decide)).mpr (Or.inr ⟨1, by decide, by decide⟩)

/-! ## Theorems: admission decision -/

/-- Claim C4: the admission decision rejects iff the token bucket (when
a token is present) or the IP bucket is violated — AND semantics for
proceeding; the token bucket is the binding violation whenever it is
violated (it is checked first), otherwise a violated IP bucket binds,
and the Retry-After value is always computed from the binding bucket's
`resetAt`. -/
theorem dual_bucket_admission (tok : Option RateLimitInfo) (ip : RateLimitInfo)
    (now : Int) :
    ((admission tok ip now = none) ↔
       ((∀ tr, tok = some tr → tr.allowed = true) ∧ ip.allowed = true))
    ∧ (∀ tr, tok = some tr → tr.allowed = false →
         admission tok ip now = some (tr, retryAfterSeconds tr.resetAt now))
    ∧ ((∀ tr, tok = some tr → tr.allowed = true) → ip.allowed = false →
         admission tok ip now = some (ip, retryAfterSeconds ip.resetAt now)) := by
  cases tok with
  | none => cases hip : ip.allowed <;> simp [admission, hip]
  | some tr =>
    cases htr : tr.allowed <;> cases hip : ip.allowed <;>
      simp [admission, htr, hip]

/-- Claim C4 witness: both buckets violated at a concrete input; the
token bucket binds and Retry-After comes from its `resetAt`. -/
theorem dual_bucket_admission_witness :
    admission (some ⟨false, 100, 0, 5000⟩) ⟨false, 50, 0, 9000⟩ 0
      = some (⟨false, 100, 0, 5000⟩, 5) := by
  have h := (dual_bucket_admission (some ⟨false, 100, 0, 5000⟩)
      ⟨false, 50, 0, 9000⟩ 0).2.1 ⟨false, 100, 0, 5000⟩ rfl rfl
  rw [h]
  decide

/-! ## Theorems: in-process rate limiter -/

theorem storeGet_cons (a : String × RateLimitEntry) (l : List (String × RateLimitEntry))
    (k : String) :
    storeGet (a :: l) k = if a.1 == k then some a.2 else storeGet l k := by
  unfold storeGet
  cases h : (a.1 == k) <;> simp [List.find?, h]

theorem storeGet_eq_none_of (l : List (String × RateLimitEntry)) (k : String)
    (h : ∀ b ∈ l, b.1 ≠ k) : storeGet l k = none := by
  unfold storeGet
  rw [List.find?_eq_none.mpr]
  · rfl
  · intro x hx
    simpa using h x hx

theorem storeGet_filter_none (l : List (String × RateLimitEntry)) (k : String)
    (p : String × RateLimitEntry → Bool) (h : storeGet l k = none) :
    storeGet (l.filter p) k = none := by
  induction l with
  | nil => simpa using h
  | cons a l ih =>
    rw [storeGet_cons] at h
    by_cases hb : (a.1 == k) = true
    · rw [if_pos hb] at h
      exact absurd h (by simp)
    · rw [if_neg hb] at h
      rw [List.filter_cons]
      split
      · rw [storeGet_cons, if_neg hb]
        exact ih h
      · exact ih h

theorem storeGet_filter_of_unique (l : List (String × RateLimitEntry)) (k : String)
    (p : String × RateLimitEntry → Bool) (v : RateLimitEntry)
    (hu : l.Pairwise (fun a b => a.1 ≠ b.1)) (h : storeGet l k = some v) :
    storeGet (l.filter p) k = if p (k, v) then some v else none := by
  induction l with
  | nil => simp [storeGet] at h
  | cons a l ih =>
    rw [List.pairwise_cons] at hu
    rw [storeGet_cons] at h
    by_cases hb : (a.1 == k) = true
    · rw [if_pos hb] at h
      injection h with h
      obtain ⟨a1, a2⟩ := a
      have hk : a1 = k := by simpa using hb
      subst hk
      subst h
      by_cases hp : p (a1, a2) = true
      · rw [List.filter_cons_of_pos hp, storeGet_cons, if_pos hb, if_pos hp]
      · rw [List.filter_cons_of_neg (by simpa using hp), if_neg hp]
        apply storeGet_filter_none
        apply storeGet_eq_none_of
        intro b hb2
        exact fun hc => hu.1 b hb2 hc.symm
    · rw [if_neg hb] at h
      rw [List.filter_cons]
      split
      · rw [storeGet_cons, if_neg hb]
        exact ih hu.2 h
      · exact ih hu.2 h

theorem storeGet_storeSet_self (l : List (String × RateLimitEntry)) (k : String)
    (v : RateLimitEntry) : storeGet (storeSet l k v) k = some v := by
  induction l with
  | nil => simp [storeSet, storeGet, List.find?]
  | cons a l ih =>
    unfold storeSet
    by_cases hb : (a.1 == k) = true
    · rw [if_pos hb, storeGet_cons]
      simp
    · rw [if_neg hb, storeGet_cons, if_neg hb]
      exact ih

theorem storeGet_cleanup_none (now : Int) (st : RLState) (id : String)
    (h : storeGet st.store id = none) :
    storeGet (cleanupExpired now st).store id = none := by
  unfold cleanupExpired
  split
  · exact h
  · exact storeGet_filter_none _ _ _ h

theorem storeGet_cleanup_live (now : Int) (st : RLState) (id : String)
    (e : RateLimitEntry) (hu : st.store.Pairwise (fun a b => a.1 ≠ b.1))
    (h : storeGet st.store id = some e) (hlive : ¬(now > e.resetAt)) :
    storeGet (cleanupExpired now st).store id = some e := by
  unfold cleanupExpired
  split
  · exact h
  · rw [storeGet_filter_of_unique _ _ _ _ hu h]
    simp [hlive]

theorem storeGet_cleanup_expired (now : Int) (st : RLState) (id : String)
    (e : RateLimitEntry) (hu : st.store.Pairwise (fun a b => a.1 ≠ b.1))
    (h : storeGet st.store id = some e) (hexp : now > e.resetAt) :
    storeGet (cleanupExpired now st).store id = some e
    ∨ storeGet (cleanupExpired now st).store id = none := by
  unfold cleanupExpired
  split
  · exact Or.inl h
  · right
    rw [storeGet_filter_of_unique _ _ _ _ hu h]
    simp [hexp]

/-- Claim C5: the in-process limiter uses a fixed (not sliding) window.
First check for an identity (no live entry) stores count 1 and
`resetAt = now + 1h`; a further allowed check within the window
increments the count and keeps the window's `resetAt`; a check after
`now > resetAt` starts a fresh window with count 1; a check at the
limit rejects with `remaining = 0` and the window's original `resetAt`;
and concretely the 101st check within one hour at limit 100 rejects
with `remaining = 0` and the first check's expiry. -/
theorem fixed_window_behavior :
    (∀ st id limit now, 0 < limit → storeGet st.store id = none →
       (checkRateLimitMemory id limit now st).1
           = ⟨true, limit, (limit : Int) - 1, now + WINDOW_MS⟩
         ∧ storeGet (checkRateLimitMemory id limit now st).2.store id
           = some ⟨1, now + WINDOW_MS⟩)
    ∧ (∀ st id limit now e, st.store.Pairwise (fun a b => a.1 ≠ b.1) →
       storeGet st.store id = some e → ¬(now > e.resetAt) → e.count < limit →
       (checkRateLimitMemory id limit now st).1
           = ⟨true, limit, (limit : Int) - (e.count : Int) - 1, e.resetAt⟩
         ∧ storeGet (checkRateLimitMemory id limit now st).2.store id
           = some ⟨e.count + 1, e.resetAt⟩)
    ∧ (∀ st id limit now e, st.store.Pairwise (fun a b => a.1 ≠ b.1) →
       storeGet st.store id = some e → now > e.resetAt → 0 < limit →
       (checkRateLimitMemory id limit now st).1
           = ⟨true, limit, (limit : Int) - 1, now + WINDOW_MS⟩
         ∧ storeGet (checkRateLimitMemory id limit now st).2.store id
           = some ⟨1, now + WINDOW_MS⟩)
    ∧ (∀ st id limit now e, st.store.Pairwise (fun a b => a.1 ≠ b.1) →
       storeGet st.store id = some e → ¬(now > e.resetAt) → e.count ≥ limit →
       (checkRateLimitMemory id limit now st).1 = ⟨false, limit, 0, e.resetAt⟩)
    ∧ (checkRateLimitMemory "tok" 100 1000
         ((fun st => (checkRateLimitMemory "tok" 100 1000 st).2)^[100]
           ⟨[], 0⟩)).1 = ⟨false, 100, 0, 1000 + WINDOW_MS⟩ := by
  refine ⟨?_, ?_, ?_, ?_, ?_⟩
  · intro st id limit now hlim h
    have hlook := storeGet_cleanup_none now st id h
    simp only [checkRateLimitMemory, hlook]
    rw [if_neg (by omega : ¬ (0 ≥ limit))]
    refine ⟨?_, ?_⟩
    · simp
    · simpa using storeGet_storeSet_self _ id ⟨1, now + WINDOW_MS⟩
  · intro st id limit now e hu h hlive hcount
    have hlook := storeGet_cleanup_live now st id e hu h hlive
    simp only [checkRateLimitMemory, hlook]
    rw [if_neg hlive, if_neg (by omega : ¬ (e.count ≥ limit))]
    refine ⟨?_, ?_⟩
    · simp [RateLimitInfo.mk.injEq]
      ring
    · simpa using storeGet_storeSet_self _ id ⟨e.count + 1, e.resetAt⟩
  · intro st id limit now e hu h hexp hlim
    rcases storeGet_cleanup_expired now st id e hu h hexp with hlook | hlook <;>
      simp only [checkRateLimitMemory, hlook]
    · rw [if_pos hexp, if_neg (by omega : ¬ (0 ≥ limit))]
      refine ⟨by simp, ?_⟩
      simpa using storeGet_storeSet_self _ id ⟨1, now + WINDOW_MS⟩
    · rw [if_neg (by omega : ¬ (0 ≥ limit))]
      refine ⟨by simp, ?_⟩
      simpa using storeGet_storeSet_self _ id ⟨1, now + WINDOW_MS⟩
  · intro st id limit now e hu h hlive hcount
    have hlook := storeGet_cleanup_live now st id e hu h hlive
    simp only [checkRateLimitMemory, hlook]
    rw [if_neg hlive, if_pos hcount]
  · have hclean : ∀ m : Nat,
        cleanupExpired 1000 (⟨[("tok", ⟨m, 3601000⟩)], 0⟩ : RLState)
          = ⟨[("tok", ⟨m, 3601000⟩)], 0⟩ := by
      intro m
      unfold cleanupExpired
      norm_num
    have step : ∀ m : Nat, m < 100 →
        (checkRateLimitMemory "tok" 100 1000 ⟨[("tok", ⟨m, 3601000⟩)], 0⟩).2
          = ⟨[("tok", ⟨m + 1, 3601000⟩)], 0⟩ := by
      intro m hm
      simp only [checkRateLimitMemory, hclean, storeGet, List.find?, beq_self_eq_true,
        Option.map_some']
      rw [if_neg (by norm_num : ¬ ((1000 : Int) > 3601000)),
        if_neg (by omega : ¬ (m ≥ 100))]
      simp [storeSet]
    have hiter : ∀ n : Nat, 1 ≤ n → n ≤ 100 →
        (fun st => (checkRateLimitMemory "tok" 100 1000 st).2)^[n] ⟨[], 0⟩
          = ⟨[("tok", ⟨n, 3601000⟩)], 0⟩ := by
      intro n h1 h2
      induction n with
      | zero => omega
      | succ m ih =>
        rw [Function.iterate_succ_apply']
        by_cases hm : m = 0
        · subst hm
          simp only [Function.iterate_zero_apply]
          decide
        · rw [ih (by omega) (by omega)]
          exact step m (by omega)
    rw [hiter 100 (by omega) (by omega)]
    decide

/-- Claim C5 witness: the first conjunct of the theorem applied to an
empty store at a concrete identity, limit and clock. -/
theorem fixed_window_behavior_witness :
    (checkRateLimitMemory "a" 5 7 ⟨[], 0⟩).1 = ⟨true, 5, 4, 3600007⟩
    ∧ storeGet (checkRateLimitMemory "a" 5 7 ⟨[], 0⟩).2.store "a"
      = some ⟨1, 3600007⟩ := by
  have h := fixed_window_behavior.1 ⟨[], 0⟩ "a" 5 7 (by decide) rfl
  exact ⟨h.1.trans (by decide), h.2.trans (by decide)⟩

/-! ## Theorems: upstream error reclassification -/

/-- Claim C6 counterexample: an upstream 404 yields a local 404 from the
standard route and a local 500 from the mini route, never the claimed
local 400; an upstream 502 yields a local 502 from the standard route,
not the claimed local 500. -/
theorem upstream_mapping_cex :
    standardUpstreamStatus 404 = 404 ∧ standardUpstreamStatus 404 ≠ 400
    ∧ standardUpstreamStatus 502 = 502 ∧ standardUpstreamStatus 502 ≠ 500
    ∧ miniUpstreamStatus 404 = 500 ∧ miniUpstreamStatus 404 ≠ 400 := by
  decide

/-- Claim C6 (amended): an upstream 429 maps to a local 503 retryable
response on both routes; the standard route passes every other upstream
status through unchanged, marking other 4xx as not retryable and 5xx as
retryable; the mini route maps every non-429 status to a local 500. -/
theorem upstream_status_mapping (s : Nat) :
    (s = 429 → standardUpstreamStatus s = 503 ∧ standardUpstreamRetryable s = true
       ∧ miniUpstreamStatus s = 503)
    ∧ (400 ≤ s → s < 500 → s ≠ 429 →
       standardUpstreamStatus s = s ∧ standardUpstreamRetryable s = false
       ∧ miniUpstreamStatus s = 500)
    ∧ (500 ≤ s →
       standardUpstreamStatus s = s ∧ standardUpstreamRetryable s = true
       ∧ miniUpstreamStatus s = 500) := by
  refine ⟨?_, ?_, ?_⟩
  · rintro rfl; decide
  · intro h1 h2 h3
    have hb : (s == 429) = false := by simpa using h3
    simp [standardUpstreamStatus, standardUpstreamRetryable, miniUpstreamStatus,
      h1, h2, h3, hb]
  · intro h
    have h3 : s ≠ 429 := by omega
    have h5 : ¬(s < 500) := by omega
    simp [standardUpstreamStatus, standardUpstreamRetryable, miniUpstreamStatus,
      h3, h5]

/-- Claim C6 (amended) witness: the amended theorem applied at upstream
status 418. -/
theorem upstream_status_mapping_witness :
    standardUpstreamStatus 418 = 418 ∧ standardUpstreamRetryable 418 = false
    ∧ miniUpstreamStatus 418 = 500 :=
  (upstream_status_mapping 418).2.1 (by decide) (by decide) (by decide)

/-! ## Tool schema validation (`src/unnamed/part_006`)

The proto message `ToolSchema_Property` is modelled as a recursive node
carrying the fields the validator reads; the absent-field states of the
proto representation (`undefined` properties map, `undefined` required
list) behave exactly like their empty counterparts in every branch of
the validator, so they are modelled by the empty list.  The top-level
`ToolSchema` has the same shape minus `type`; it is modelled by the same
node type, whose `type` field the top-level code never reads. -/

inductive SchemaProp where
  | mk (type : String) (description : String) (enumVals : List String)
       (properties : List (String × SchemaProp))
       (required : List String)
       (items : Option SchemaProp)
       (additionalProperties : Option Bool)

def SchemaProp.type : SchemaProp → String
  | .mk t _ _ _ _ _ _ => t

def SchemaProp.properties : SchemaProp → List (String × SchemaProp)
  | .mk _ _ _ props _ _ _ => props

def SchemaProp.required : SchemaProp → List String
  | .mk _ _ _ _ req _ _ => req

def SchemaProp.items : SchemaProp → Option SchemaProp
  | .mk _ _ _ _ _ items _ => items

def SchemaProp.additionalProperties : SchemaProp → Option Bool
  | .mk _ _ _ _ _ _ addl => addl

/-- Mirror of the proto `Tool` message as the validator consumes it. -/
structure Tool where
  name : String
  description : String
  parameters : Option SchemaProp
  strict : Bool

/-- `MAX_SCHEMA_DEPTH` (part_006 line 51). -/
def MAX_SCHEMA_DEPTH : Nat := 10

/-- `VALID_TYPES` (part_006 line 45). -/
def VALID_TYPES : List String :=
  ["string", "number", "integer", "boolean", "array", "object"]

def joinedValidTypes : String := String.intercalate ", " VALID_TYPES

/-- Depth-limit error string (part_006 lines 74-76). -/
def depthErrMsg (toolName path : String) : String :=
  s!"Tool \"{toolName}\": schema at \"{path}\" exceeds maximum nesting depth of {MAX_SCHEMA_DEPTH}"

/-- Invalid-type error string (part_006 lines 82-84). -/
def invalidTypeMsg (toolName path ptype : String) : String :=
  s!"Tool \"{toolName}\": property \"{path}\" has invalid type \"{ptype}\". Valid types: {joinedValidTypes}"

/-- Strict-mode additionalProperties error string (part_006 lines 90-93). -/
def strictAddlMsg (toolName path : String) : String :=
  s!"Tool \"{toolName}\": strict mode requires additionalProperties: false at \"{path}\""

/-- Strict-mode missing-required error string (part_006 lines 102-107). -/
def strictMissingMsg (toolName path missing : String) : String :=
  s!"Tool \"{toolName}\": strict mode requires all properties to be in required array at \"{path}\". Missing: {missing}"

/-- Nested required-field-not-found error string (part_006 lines 116-120),
with the dotted path and the list of available property names. -/
def reqNotFoundMsg (toolName path field avail : String) : String :=
  s!"Tool \"{toolName}\": required field \"{field}\" not found in \"{path}.properties\". Available: {avail}"

/-- Top-level required-field-not-found error string (part_006 lines
181-184); note: no available-names list, no dotted path. -/
def topReqMsg (toolName field : String) : String :=
  s!"Tool \"{toolName}\": required field \"{field}\" not found in properties"

/-- Top-level strict additionalProperties error string (lines 193-196). -/
def topStrictAddlMsg (toolName : String) : String :=
  s!"Tool \"{toolName}\": strict mode requires additionalProperties: false at top level"

/-- Top-level strict missing-required error string (lines 204-209). -/
def topStrictMissingMsg (toolName missing : String) : String :=
  s!"Tool \"{toolName}\": strict mode requires all properties to be in required array. Missing: {missing}"

def nameReqMsg : String := "Tool name is required and must be a string"

def nameInvalidMsg (name : String) : String :=
  s!"Tool name \"{name}\" is invalid. Tool names must contain only letters, digits, underscores, and hyphens (a-zA-Z0-9_-)"

def descReqMsg : String := "Tool description is required and must be a string"

def noPropsMsg : String := "Tool parameters must have a properties object"

/-- Key lookup in a `properties` map (JS object indexing). -/
def lookupProp (props : List (String × SchemaProp)) (k : String) : Option SchemaProp :=
  (props.find? (fun e => e.1 == k)).map (·.2)

/-- `Object.keys(prop.properties)`. -/
def propKeys (props : List (String × SchemaProp)) : List String := props.map (·.1)

/-- `Object.keys(prop.properties).join(', ')`. -/
def availableOf (props : List (String × SchemaProp)) : String :=
  String.intercalate ", " (propKeys props)

/-- `TOOL_NAME_PATTERN = /^[a-zA-Z0-9_-]+$/` (part_006 line 40). -/
def toolNamePatternTest (s : String) : Bool :=
  !s.toList.isEmpty && s.toList.all (fun c => c.isAlphanum || c == '_' || c == '-')

mutual

/-- Mirror of `validateProperty` (part_006 lines 63-137): depth guard,
type check, strict-mode object checks, required-name existence check
and recursion over nested `properties` (all three gated on a non-empty
properties map), then recursion into `items`. -/
def validateProperty : SchemaProp → String → String → Nat → Bool → List String
  | .mk ptype _ _ props req items _addl, path, toolName, depth, strictMode =>
    if depth > MAX_SCHEMA_DEPTH then
      [depthErrMsg toolName path]
    else
      (if ptype = "" ∨ (VALID_TYPES.contains ptype) = false then
         [invalidTypeMsg toolName path ptype]
       else [])
      ++ (if strictMode ∧ ptype = "object" then
            (if (_addl == some false) = false then [strictAddlMsg toolName path] else [])
            ++ (if !props.isEmpty then
                  (let missing := (propKeys props).filter (fun n => (req.contains n) = false)
                   if missing ≠ [] then
                     [strictMissingMsg toolName path (String.intercalate ", " missing)]
                   else [])
                else [])
          else [])
      ++ (if !props.isEmpty then
            (req.filterMap (fun f =>
               if (lookupProp props f).isNone then
                 some (reqNotFoundMsg toolName path f (availableOf props))
               else none))
            ++ validateChildProps props path toolName depth strictMode
          else [])
      ++ (match items with
          | some it => validateProperty it (path ++ ".items") toolName (depth + 1) strictMode
          | none => [])

/-- The `for (const [nestedName, nestedProp] of Object.entries(...))`
recursion of part_006 lines 126-128. -/
def validateChildProps : List (String × SchemaProp) → String → String → Nat → Bool → List String
  | [], _, _, _, _ => []
  | (n, p) :: rest, path, toolName, depth, strictMode =>
    validateProperty p (path ++ "." ++ n) toolName (depth + 1) strictMode
    ++ validateChildProps rest path toolName depth strictMode

end

/-- The top-level `for (const [propName, prop] of Object.entries(schema.properties))`
loop of `validateToolSchema` (part_006 lines 213-215): each top property
starts at path `propName` and depth 0. -/
def validateTopProps : List (String × SchemaProp) → String → Bool → List String
  | [], _, _ => []
  | (n, p) :: rest, toolName, strictMode =>
    validateProperty p n toolName 0 strictMode
    ++ validateTopProps rest toolName strictMode

/-- Mirror of `validateToolSchema` (part_006 lines 147-218). -/
def validateToolSchema (tool : Tool) : List String :=
  let nameErrs :=
    if tool.name = "" then [nameReqMsg]
    else if toolNamePatternTest tool.name = false then [nameInvalidMsg tool.name]
    else []
  let descErrs := if tool.description = "" then [descReqMsg] else []
  match tool.parameters with
  | none => nameErrs ++ descErrs
  | some (.mk _ _ _ props req _ addl) =>
    if props.isEmpty then nameErrs ++ descErrs ++ [noPropsMsg]
    else
      let topReqErrs := req.filterMap (fun f =>
        if (lookupProp props f).isNone then some (topReqMsg tool.name f) else none)
      let strictErrs :=
        if tool.strict then
          (if (addl == some false) = false then [topStrictAddlMsg tool.name] else [])
          ++ (let missing := (propKeys props).filter (fun n => (req.contains n) = false)
              if missing ≠ [] then
                [topStrictMissingMsg tool.name (String.intercalate ", " missing)]
              else [])
        else []
      nameErrs ++ descErrs ++ topReqErrs ++ strictErrs
        ++ validateTopProps props tool.name tool.strict

/-! ## Validation cache (`validateTools` and `getToolsHash`) -/

/-- String-list serialization used inside the `JSON.stringify` model. -/
def stringifyStrList (l : List String) : String :=
  "[" ++ String.intercalate "," l ++ "]"

mutual

/-- Model of `JSON.stringify(t.parameters)` on a present parameters
node: a fixed-order rendering of every field of the node.  Its exact
text is irrelevant to the claims; what matters is that it is a function
of the parameters tree alone. -/
def stringifyProp : SchemaProp → String
  | .mk t d ev props req items addl =>
    "\x7b" ++ "type:" ++ t ++ ",description:" ++ d
    ++ ",enum:" ++ stringifyStrList ev
    ++ ",properties:" ++ stringifyProps props
    ++ ",required:" ++ stringifyStrList req
    ++ ",items:" ++ (match items with | some it => stringifyProp it | none => "null")
    ++ ",additionalProperties:"
    ++ (match addl with
        | some true => "true"
        | some false => "false"
        | none => "null")
    ++ "\x7d"

def stringifyProps : List (String × SchemaProp) → String
  | [] => ""
  | (n, p) :: rest => n ++ ":" ++ stringifyProp p ++ ";" ++ stringifyProps rest

end

/-- `JSON.stringify(t.parameters)`: `undefined` renders as "undefined"
inside the template string. -/
def stringifyParams : Option SchemaProp → String
  | none => "undefined"
  | some p => stringifyProp p

/-- Sorted insertion for the model of `Array.prototype.sort()` on the
serialized tool strings. -/
def insertSorted (s : String) : List String → List String
  | [] => [s]
  | t :: rest => if s ≤ t then s :: t :: rest else t :: insertSorted s rest

def sortStrings (l : List String) : List String := l.foldr insertSorted []

/-- One entry of `getToolsHash`'s preimage:
`\x60${t.name}|${t.description}|${JSON.stringify(t.parameters)}\x60` —
note that `t.strict` is NOT serialized (part_006 lines 25-33). -/
def toolHashEntry (t : Tool) : String :=
  t.name ++ "|" ++ t.description ++ "|" ++ stringifyParams t.parameters

/-- The string fed to `createHash('sha256')` by `getToolsHash`: the
sorted serialized entries joined with newlines. -/
def getToolsHashInput (tools : List Tool) : String :=
  String.intercalate "\n" (sortStrings (tools.map toolHashEntry))

/-- `Map.set` on the validation cache. -/
def validationCacheSet (cache : List (String × List String)) (k : String)
    (v : List String) : List (String × List String) :=
  match cache with
  | [] => [(k, v)]
  | (k', v') :: rest =>
    if k' == k then (k, v) :: rest else (k', v') :: validationCacheSet rest k v

/-- Mirror of `validateTools` (part_006 lines 230-255) with the
module-level `validationCache` passed explicitly and the SHA-256 digest
abstracted as `hashFn`.  (The `Array.isArray` guard always passes in
this typed model.)  Returns the error list and the updated cache. -/
def validateTools (hashFn : String → String) (tools : List Tool)
    (cache : List (String × List String)) :
    List String × List (String × List String) :=
  let toolsHash := hashFn (getToolsHashInput tools)
  match (cache.find? (fun e => e.1 == toolsHash)).map (·.2) with
  | some cached => (cached, cache)
  | none =>
    let errors := tools.foldr (fun t acc => validateToolSchema t ++ acc) []
    (errors, validationCacheSet cache toolsHash errors)

/-! ## Tree predicates used to state the schema claims -/

mutual

/-- Some node of the subtree is an object node without
`additionalProperties: false` (the strict-mode condition A violation). -/
def addlViolProp : SchemaProp → Bool
  | .mk t _ _ props _ items addl =>
    ((t == "object") && !(addl == some false))
    || addlViolList props
    || (match items with | some it => addlViolProp it | none => false)

def addlViolList : List (String × SchemaProp) → Bool
  | [] => false
  | (_, p) :: rest => addlViolProp p || addlViolList rest

end

mutual

/-- Some node of the subtree is an object node with a property name
missing from its `required` list (the strict-mode condition B
violation). -/
def reqViolProp : SchemaProp → Bool
  | .mk t _ _ props req items _ =>
    ((t == "object") && (propKeys props).any (fun n => !(req.contains n)))
    || reqViolList props
    || (match items with | some it => reqViolProp it | none => false)

def reqViolList : List (String × SchemaProp) → Bool
  | [] => false
  | (_, p) :: rest => reqViolProp p || reqViolList rest

end

mutual

/-- Height of a schema tree (a leaf has height 1). -/
def heightOf : SchemaProp → Nat
  | .mk _ _ _ props _ items _ => 1 + max (heightList props) (heightItems items)

def heightItems : Option SchemaProp → Nat
  | some it => heightOf it
  | none => 0

def heightList : List (String × SchemaProp) → Nat
  | [] => 0
  | (_, p) :: rest => max (heightOf p) (heightList rest)

end

mutual

/-- The nodes `validateProperty` is invoked on, with the dotted path of
each invocation, when started on a node at a given path and depth. -/
def visitedNodes : SchemaProp → String → Nat → List (String × SchemaProp)
  | .mk t d ev props req items addl, path, depth =>
    if depth > MAX_SCHEMA_DEPTH then []
    else
      (path, SchemaProp.mk t d ev props req items addl) ::
        (visitedList props path depth
         ++ (match items with
             | some it => visitedNodes it (path ++ ".items") (depth + 1)
             | none => []))

def visitedList : List (String × SchemaProp) → String → Nat → List (String × SchemaProp)
  | [], _, _ => []
  | (n, p) :: rest, path, depth =>
    visitedNodes p (path ++ "." ++ n) (depth + 1) ++ visitedList rest path depth

end

/-! ## Unfolding lemmas for the mutually recursive definitions -/

theorem validateProperty_unfold (ptype d : String) (ev : List String) (props : List (String × SchemaProp))
    (req : List String) (items : Option SchemaProp) (addl : Option Bool)
    (path toolName : String) (depth : Nat) (strictMode : Bool) :
    validateProperty (.mk ptype d ev props req items addl) path toolName depth strictMode
    = if depth > MAX_SCHEMA_DEPTH then
        [depthErrMsg toolName path]
      else
        (if ptype = "" ∨ (VALID_TYPES.contains ptype) = false then
           [invalidTypeMsg toolName path ptype]
         else [])
        ++ (if strictMode ∧ ptype = "object" then
              (if (addl == some false) = false then [strictAddlMsg toolName path] else [])
              ++ (if !props.isEmpty then
                    (let missing := (propKeys props).filter (fun n => (req.contains n) = false)
                     if missing ≠ [] then
                       [strictMissingMsg toolName path (String.intercalate ", " missing)]
                     else [])
                  else [])
            else [])
        ++ (if !props.isEmpty then
              (req.filterMap (fun f =>
                 if (lookupProp props f).isNone then
                   some (reqNotFoundMsg toolName path f (availableOf props))
                 else none))
              ++ validateChildProps props path toolName depth strictMode
            else [])
        ++ (match items with
            | some it => validateProperty it (path ++ ".items") toolName (depth + 1) strictMode
            | none => []) := by
  rw [validateProperty.eq_def]

theorem validateChildProps_nil (path toolName : String) (depth : Nat) (strictMode : Bool) :
    validateChildProps [] path toolName depth strictMode = [] := by
  rw [validateChildProps.eq_def]

theorem validateChildProps_cons (n : String) (p : SchemaProp)
    (rest : List (String × SchemaProp)) (path toolName : String) (depth : Nat)
    (strictMode : Bool) :
    validateChildProps ((n, p) :: rest) path toolName depth strictMode
    = validateProperty p (path ++ "." ++ n) toolName (depth + 1) strictMode
      ++ validateChildProps rest path toolName depth strictMode := by
  rw [validateChildProps.eq_def]

theorem addlViolProp_unfold (t d : String) (ev : List String) (props : List (String × SchemaProp))
    (req : List String) (items : Option SchemaProp) (addl : Option Bool) :
    addlViolProp (.mk t d ev props req items addl)
    = (((t == "object") && !(addl == some false))
       || addlViolList props
       || (match items with | some it => addlViolProp it | none => false)) := by
  rw [addlViolProp.eq_def]

theorem addlViolList_nil : addlViolList [] = false := by
  rw [addlViolList.eq_def]

theorem addlViolList_cons (n : String) (p : SchemaProp)
    (rest : List (String × SchemaProp)) :
    addlViolList ((n, p) :: rest) = (addlViolProp p || addlViolList rest) := by
  rw [addlViolList.eq_def]

theorem reqViolProp_unfold (t d : String) (ev : List String) (props : List (String × SchemaProp))
    (req : List String) (items : Option SchemaProp) (addl : Option Bool) :
    reqViolProp (.mk t d ev props req items addl)
    = (((t == "object") && (propKeys props).any (fun n => !(req.contains n)))
       || reqViolList props
       || (match items with | some it => reqViolProp it | none => false)) := by
  rw [reqViolProp.eq_def]

theorem reqViolList_nil : reqViolList [] = false := by
  rw [reqViolList.eq_def]

theorem reqViolList_cons (n : String) (p : SchemaProp)
    (rest : List (String × SchemaProp)) :
    reqViolList ((n, p) :: rest) = (reqViolProp p || reqViolList rest) := by
  rw [reqViolList.eq_def]

theorem heightOf_unfold (t d : String) (ev : List String) (props : List (String × SchemaProp))
    (req : List String) (items : Option SchemaProp) (addl : Option Bool) :
    heightOf (.mk t d ev props req items addl)
    = 1 + max (heightList props) (heightItems items) := by
  rw [heightOf.eq_def]

theorem heightItems_none : heightItems none = 0 := by
  rw [heightItems.eq_def]

theorem heightItems_some (it : SchemaProp) : heightItems (some it) = heightOf it := by
  rw [heightItems.eq_def]

theorem heightList_nil : heightList [] = 0 := by
  rw [heightList.eq_def]

theorem heightList_cons (n : String) (p : SchemaProp)
    (rest : List (String × SchemaProp)) :
    heightList ((n, p) :: rest) = max (heightOf p) (heightList rest) := by
  rw [heightList.eq_def]

theorem visitedNodes_unfold (t d : String) (ev : List String) (props : List (String × SchemaProp))
    (req : List String) (items : Option SchemaProp) (addl : Option Bool)
    (path : String) (depth : Nat) :
    visitedNodes (.mk t d ev props req items addl) path depth
    = if depth > MAX_SCHEMA_DEPTH then []
      else
        (path, SchemaProp.mk t d ev props req items addl) ::
          (visitedList props path depth
           ++ (match items with
               | some it => visitedNodes it (path ++ ".items") (depth + 1)
               | none => [])) := by
  rw [visitedNodes.eq_def]

theorem visitedList_nil (path : String) (depth : Nat) : visitedList [] path depth = [] := by
  rw [visitedList.eq_def]

theorem visitedList_cons (n : String) (p : SchemaProp)
    (rest : List (String × SchemaProp)) (path : String) (depth : Nat) :
    visitedList ((n, p) :: rest) path depth
    = visitedNodes p (path ++ "." ++ n) (depth + 1) ++ visitedList rest path depth := by
  rw [visitedList.eq_def]

/-! ## Theorems: the validation cache ignores the strict flag -/

/-- A strict-irrelevant demo schema: an object with one string property
listed in `required`, but without `additionalProperties: false`, so
strict-mode validation must reject it while non-strict validation
accepts it. -/
def cacheDemoParams : SchemaProp :=
  .mk "object" "" [] [("a", .mk "string" "" [] [] [] none none)] ["a"] none none

def cacheDemoLoose : Tool :=
  { name := "t", description := "d", parameters := some cacheDemoParams, strict := false }

def cacheDemoStrict : Tool :=
  { name := "t", description := "d", parameters := some cacheDemoParams, strict := true }

/-- Claim C10: `validateTools` is not a pure function of its argument.
The cache key hashes only name, description and parameters — not
`strict` — so validating the non-strict tool list and then the
otherwise-identical strict tool list returns the first call's cached
(empty) error list for the second, although direct validation of the
strict tool reports a strict-mode error.  Proved for an arbitrary
digest function `hashFn`. -/
theorem validateTools_cache_ignores_strict (hashFn : String → String) :
    (validateTools hashFn [cacheDemoStrict]
        (validateTools hashFn [cacheDemoLoose] []).2).1
      = (validateTools hashFn [cacheDemoLoose] []).1
    ∧ (validateTools hashFn [cacheDemoLoose] []).1 = []
    ∧ validateToolSchema cacheDemoStrict = [topStrictAddlMsg "t"] := by
  have hkey : getToolsHashInput [cacheDemoStrict] = getToolsHashInput [cacheDemoLoose] := rfl
  have hloose : validateToolSchema cacheDemoLoose = [] := by decide
  have hstrict : validateToolSchema cacheDemoStrict = [topStrictAddlMsg "t"] := by decide
  have h1 : validateTools hashFn [cacheDemoLoose] []
      = ([], [(hashFn (getToolsHashInput [cacheDemoLoose]), [])]) := by
    simp [validateTools, List.find?, hloose, validationCacheSet]
  refine ⟨?_, by rw [h1], hstrict⟩
  rw [h1]
  simp [validateTools, hkey, List.find?]

/-! ## Theorems: strict-mode validation (claim C2) -/

mutual

/-- In strict mode, an object node anywhere in the subtree without
`additionalProperties: false` forces a non-empty error list (the depth
guard itself errors past the limit). -/
theorem validateProperty_ne_nil_of_addlViol :
    ∀ (p : SchemaProp) (path toolName : String) (depth : Nat),
      addlViolProp p = true →
      validateProperty p path toolName depth true ≠ []
  | .mk t d ev props req items addl, path, toolName, depth, h => by
    rw [validateProperty_unfold]
    by_cases hd : depth > MAX_SCHEMA_DEPTH
    · simp [hd]
    · rw [if_neg hd]
      rw [addlViolProp_unfold] at h
      simp only [Bool.or_eq_true] at h
      intro hnil
      simp only [List.append_eq_nil] at hnil
      obtain ⟨⟨⟨h1, h2⟩, h3⟩, h4⟩ := hnil
      rcases h with (hv | hv) | hv
      · simp only [Bool.and_eq_true, beq_iff_eq, Bool.not_eq_true'] at hv
        obtain ⟨ht, haddl⟩ := hv
        simp [ht, haddl] at h2
      · have hne : props.isEmpty = false := by
          cases props with
          | nil => rw [addlViolList_nil] at hv; exact absurd hv (by simp)
          | cons a rest => rfl
        rw [hne] at h3
        simp only [Bool.not_false, if_true, List.append_eq_nil] at h3
        exact validateChildProps_ne_nil_of_addlViol props path toolName depth hv h3.2
      · cases items with
        | none => exact absurd hv (by simp)
        | some it =>
          exact validateProperty_ne_nil_of_addlViol it (path ++ ".items") toolName
            (depth + 1) hv h4

theorem validateChildProps_ne_nil_of_addlViol :
    ∀ (l : List (String × SchemaProp)) (path toolName : String) (depth : Nat),
      addlViolList l = true →
      validateChildProps l path toolName depth true ≠ []
  | [], _, _, _, h => by
    rw [addlViolList_nil] at h
    exact absurd h (by simp)
  | (n, p) :: rest, path, toolName, depth, h => by
    rw [addlViolList_cons] at h
    rw [validateChildProps_cons]
    simp only [Bool.or_eq_true] at h
    intro hnil
    rw [List.append_eq_nil] at hnil
    rcases h with h | h
    · exact validateProperty_ne_nil_of_addlViol p (path ++ "." ++ n) toolName
        (depth + 1) h hnil.1
    · exact validateChildProps_ne_nil_of_addlViol rest path toolName depth h hnil.2

end

mutual

/-- In strict mode, an object node anywhere in the subtree with a
property name missing from its `required` list forces a non-empty
error list. -/
theorem validateProperty_ne_nil_of_reqViol :
    ∀ (p : SchemaProp) (path toolName : String) (depth : Nat),
      reqViolProp p = true →
      validateProperty p path toolName depth true ≠ []
  | .mk t d ev props req items addl, path, toolName, depth, h => by
    rw [validateProperty_unfold]
    by_cases hd : depth > MAX_SCHEMA_DEPTH
    · simp [hd]
    · rw [if_neg hd]
      rw [reqViolProp_unfold] at h
      simp only [Bool.or_eq_true] at h
      intro hnil
      simp only [List.append_eq_nil] at hnil
      obtain ⟨⟨⟨h1, h2⟩, h3⟩, h4⟩ := hnil
      rcases h with (hv | hv) | hv
      · simp only [Bool.and_eq_true, beq_iff_eq] at hv
        obtain ⟨ht, hany⟩ := hv
        rw [List.any_eq_true] at hany
        obtain ⟨x, hx, hpx⟩ := hany
        have hne : props.isEmpty = false := by
          cases props with
          | nil => simp [propKeys] at hx
          | cons a rest => rfl
        have hmem : x ∈ (propKeys props).filter (fun n => (req.contains n) = false) := by
          rw [List.mem_filter]
          exact ⟨hx, by simpa using hpx⟩
        have hfne : (propKeys props).filter (fun n => (req.contains n) = false) ≠ [] :=
          List.ne_nil_of_mem hmem
        simp [ht, hne, hfne] at h2
        exact (by simpa using hpx : x ∉ req) (h2.2 x hx)
      · have hne : props.isEmpty = false := by
          cases props with
          | nil => rw [reqViolList_nil] at hv; exact absurd hv (by simp)
          | cons a rest => rfl
        rw [hne] at h3
        simp only [Bool.not_false, if_true, List.append_eq_nil] at h3
        exact validateChildProps_ne_nil_of_reqViol props path toolName depth hv h3.2
      · cases items with
        | none => exact absurd hv (by simp)
        | some it =>
          exact validateProperty_ne_nil_of_reqViol it (path ++ ".items") toolName
            (depth + 1) hv h4

theorem validateChildProps_ne_nil_of_reqViol :
    ∀ (l : List (String × SchemaProp)) (path toolName : String) (depth : Nat),
      reqViolList l = true →
      validateChildProps l path toolName depth true ≠ []
  | [], _, _, _, h => by
    rw [reqViolList_nil] at h
    exact absurd h (by simp)
  | (n, p) :: rest, path, toolName, depth, h => by
    rw [reqViolList_cons] at h
    rw [validateChildProps_cons]
    simp only [Bool.or_eq_true] at h
    intro hnil
    rw [List.append_eq_nil] at hnil
    rcases h with h | h
    · exact validateProperty_ne_nil_of_reqViol p (path ++ "." ++ n) toolName
        (depth + 1) h hnil.1
    · exact validateChildProps_ne_nil_of_reqViol rest path toolName depth h hnil.2

end

mutual

/-- When every object node of the subtree satisfies both strict-mode
conditions, strict validation emits exactly the non-strict errors. -/
theorem validateProperty_strict_eq_of_ok :
    ∀ (p : SchemaProp) (path toolName : String) (depth : Nat),
      addlViolProp p = false → reqViolProp p = false →
      validateProperty p path toolName depth true
        = validateProperty p path toolName depth false
  | .mk t d ev props req items addl, path, toolName, depth, hA, hR => by
    rw [validateProperty_unfold, validateProperty_unfold]
    by_cases hd : depth > MAX_SCHEMA_DEPTH
    · rw [if_pos hd, if_pos hd]
    · rw [if_neg hd, if_neg hd]
      rw [addlViolProp_unfold] at hA
      rw [reqViolProp_unfold] at hR
      simp only [Bool.or_eq_false_iff] at hA hR
      obtain ⟨⟨hA1, hA2⟩, hA3⟩ := hA
      obtain ⟨⟨hR1, hR2⟩, hR3⟩ := hR
      rw [validateChildProps_strict_eq_of_ok props path toolName depth hA2 hR2]
      have hIA : ∀ it, items = some it → addlViolProp it = false := by
        intro it hit
        rw [hit] at hA3
        simpa using hA3
      have hIR : ∀ it, items = some it → reqViolProp it = false := by
        intro it hit
        rw [hit] at hR3
        simpa using hR3
      clear hA3 hR3
      have hitems :
          (match items with
           | some it => validateProperty it (path ++ ".items") toolName (depth + 1) true
           | none => ([] : List String))
          = (match items with
             | some it => validateProperty it (path ++ ".items") toolName (depth + 1) false
             | none => ([] : List String)) := by
        cases items with
        | none => rfl
        | some it =>
          exact validateProperty_strict_eq_of_ok it (path ++ ".items") toolName (depth + 1)
            (hIA it rfl) (hIR it rfl)
      rw [hitems]
      by_cases ht : t = "object"
      · have haddl : addl = some false := by
          have h6 := hA1
          rw [ht] at h6
          simpa using h6
        have hall : ∀ n ∈ propKeys props, n ∈ req := by
          have h6 := hR1
          rw [ht] at h6
          simp only [beq_self_eq_true, Bool.true_and, List.any_eq_false] at h6
          intro n hn
          simpa using h6 n hn
        have hnoex : ¬∃ x ∈ propKeys props, x ∉ req := by
          push_neg
          exact hall
        simp [ht, haddl, hnoex]
        cases items <;> rfl
      · simp [ht]
        cases items <;> rfl


theorem validateChildProps_strict_eq_of_ok :
    ∀ (l : List (String × SchemaProp)) (path toolName : String) (depth : Nat),
      addlViolList l = false → reqViolList l = false →
      validateChildProps l path toolName depth true
        = validateChildProps l path toolName depth false
  | [], path, toolName, depth, _, _ => by
    rw [validateChildProps_nil, validateChildProps_nil]
  | (n, p) :: rest, path, toolName, depth, hA, hR => by
    rw [addlViolList_cons] at hA
    rw [reqViolList_cons] at hR
    simp only [Bool.or_eq_false_iff] at hA hR
    rw [validateChildProps_cons, validateChildProps_cons,
      validateProperty_strict_eq_of_ok p (path ++ "." ++ n) toolName (depth + 1) hA.1 hR.1,
      validateChildProps_strict_eq_of_ok rest path toolName depth hA.2 hR.2]

end

theorem validateTopProps_ne_nil_of_addlViol (l : List (String × SchemaProp))
    (toolName : String) (h : addlViolList l = true) :
    validateTopProps l toolName true ≠ [] := by
  induction l with
  | nil => rw [addlViolList_nil] at h; exact absurd h (by simp)
  | cons a rest ih =>
    obtain ⟨n, p⟩ := a
    rw [addlViolList_cons] at h
    simp only [Bool.or_eq_true] at h
    intro hnil
    rw [show validateTopProps ((n, p) :: rest) toolName true
        = validateProperty p n toolName 0 true ++ validateTopProps rest toolName true
      from rfl, List.append_eq_nil] at hnil
    rcases h with h | h
    · exact validateProperty_ne_nil_of_addlViol p n toolName 0 h hnil.1
    · exact ih h hnil.2

theorem validateTopProps_ne_nil_of_reqViol (l : List (String × SchemaProp))
    (toolName : String) (h : reqViolList l = true) :
    validateTopProps l toolName true ≠ [] := by
  induction l with
  | nil => rw [reqViolList_nil] at h; exact absurd h (by simp)
  | cons a rest ih =>
    obtain ⟨n, p⟩ := a
    rw [reqViolList_cons] at h
    simp only [Bool.or_eq_true] at h
    intro hnil
    rw [show validateTopProps ((n, p) :: rest) toolName true
        = validateProperty p n toolName 0 true ++ validateTopProps rest toolName true
      from rfl, List.append_eq_nil] at hnil
    rcases h with h | h
    · exact validateProperty_ne_nil_of_reqViol p n toolName 0 h hnil.1
    · exact ih h hnil.2

theorem validateTopProps_strict_eq_of_ok (l : List (String × SchemaProp))
    (toolName : String) (hA : addlViolList l = false) (hR : reqViolList l = false) :
    validateTopProps l toolName true = validateTopProps l toolName false := by
  induction l with
  | nil => rfl
  | cons a rest ih =>
    obtain ⟨n, p⟩ := a
    rw [addlViolList_cons] at hA
    rw [reqViolList_cons] at hR
    simp only [Bool.or_eq_false_iff] at hA hR
    show validateProperty p n toolName 0 true ++ validateTopProps rest toolName true
      = validateProperty p n toolName 0 false ++ validateTopProps rest toolName false
    rw [validateProperty_strict_eq_of_ok p n toolName 0 hA.1 hR.1, ih hA.2 hR.2]

/-- Claim C2: for a strict tool with a parameters schema, validation
returns at least one error whenever some object level (root included)
lacks `additionalProperties: false`, at least one error whenever some
object level has a property name missing from its `required` list, and
exactly the non-strict error list (hence no strict-mode errors) when
every object level satisfies both conditions. -/
theorem strict_mode_errors (tool : Tool) (schema : SchemaProp)
    (hstrict : tool.strict = true) (hparam : tool.parameters = some schema) :
    ((schema.additionalProperties == some false) = false
        ∨ addlViolList schema.properties = true →
      validateToolSchema tool ≠ [])
    ∧ ((propKeys schema.properties).any (fun n => !(schema.required.contains n)) = true
        ∨ reqViolList schema.properties = true →
      validateToolSchema tool ≠ [])
    ∧ ((schema.additionalProperties == some false) = true →
       (propKeys schema.properties).all (fun n => schema.required.contains n) = true →
       addlViolList schema.properties = false →
       reqViolList schema.properties = false →
       validateToolSchema tool
         = validateToolSchema
             { name := tool.name, description := tool.description,
               parameters := tool.parameters, strict := false }) := by
  obtain ⟨nm, ds, params, stc⟩ := tool
  obtain ⟨t, d, ev, props, req, items, addl⟩ := schema
  simp only at hstrict hparam
  subst hstrict
  subst hparam
  simp only [SchemaProp.additionalProperties, SchemaProp.properties, SchemaProp.required]
  refine ⟨?_, ?_, ?_⟩
  · intro hviol hnil
    simp only [validateToolSchema] at hnil
    cases hp : props.isEmpty with
    | true => simp [hp] at hnil
    | false =>
      rw [hp] at hnil
      simp only [Bool.false_eq_true, if_false, List.append_eq_nil] at hnil
      obtain ⟨⟨⟨⟨h1, h2⟩, h3⟩, h4⟩, h5⟩ := hnil
      rcases hviol with haddl | hnested
      · simp [haddl] at h4
      · exact validateTopProps_ne_nil_of_addlViol props nm hnested h5
  · intro hviol hnil
    simp only [validateToolSchema] at hnil
    cases hp : props.isEmpty with
    | true =>
      have hpe : props = [] := by simpa [List.isEmpty_iff] using hp
      subst hpe
      rcases hviol with hany | hnested
      · simp [propKeys] at hany
      · rw [reqViolList_nil] at hnested
        exact absurd hnested (by simp)
    | false =>
      rw [hp] at hnil
      simp only [Bool.false_eq_true, if_false, List.append_eq_nil] at hnil
      obtain ⟨⟨⟨⟨h1, h2⟩, h3⟩, h4⟩, h5⟩ := hnil
      rcases hviol with hany | hnested
      · rw [List.any_eq_true] at hany
        obtain ⟨x, hx, hpx⟩ := hany
        have hex : ∃ x ∈ propKeys props, x ∉ req := ⟨x, hx, by simpa using hpx⟩
        simp [hex] at h4
      · exact validateTopProps_ne_nil_of_reqViol props nm hnested h5
  · intro h1 h2 h3 h4
    simp only [validateToolSchema]
    rw [validateTopProps_strict_eq_of_ok props nm h3 h4]
    cases hp : props.isEmpty with
    | true => simp [hp]
    | false =>
      have haddl : addl = some false := by simpa using h1
      have hall : ∀ n ∈ propKeys props, n ∈ req := by
        rw [List.all_eq_true] at h2
        intro n hn
        simpa using h2 n hn
      have hnoex : ¬∃ x ∈ propKeys props, x ∉ req := by
        push_neg
        exact hall
      simp [hp, haddl, hnoex]

/-- Claim C2 witness: the theorem's first conjunct applied to a concrete
strict tool whose root object lacks `additionalProperties: false`. -/
theorem strict_mode_errors_witness : validateToolSchema cacheDemoStrict ≠ [] :=
  (strict_mode_errors cacheDemoStrict cacheDemoParams rfl rfl).1 (Or.inl (by decide))

/-- Claim C10 witness: the theorem applied at a concrete digest function. -/
theorem validateTools_cache_ignores_strict_witness :
    (validateTools (fun s => s) [cacheDemoStrict]
        (validateTools (fun s => s) [cacheDemoLoose] []).2).1
      = (validateTools (fun s => s) [cacheDemoLoose] []).1
    ∧ validateToolSchema cacheDemoStrict = [topStrictAddlMsg "t"] :=
  ⟨(validateTools_cache_ignores_strict (fun s => s)).1,
   (validateTools_cache_ignores_strict (fun s => s)).2.2⟩

/-! ## Theorems: required-name checking (claim C7) -/

/-- A node whose `required` list references a name although its
properties map is empty: the validator never checks it (the check is
gated on a non-empty properties map). -/
def reqDemoNode : SchemaProp := .mk "object" "" [] [] ["x"] none none

def reqDemoTool : Tool :=
  { name := "t", description := "d",
    parameters := some (.mk "object" "" [] [("a", reqDemoNode)] [] none none),
    strict := false }

/-- A tool whose top-level `required` references a missing name; the
resulting error has no dotted path and no available-names list. -/
def topMissingTool : Tool :=
  { name := "t", description := "d",
    parameters := some (.mk "object" "" []
      [("a", .mk "string" "" [] [] [] none none)] ["b"] none none),
    strict := false }

/-- Claim C7 counterexample: the nested node `a` requires the name `x`
which does not exist in its (empty) sibling properties map, yet
validation reports no error at all; and the top-level missing-name
error carries neither a dotted path nor an available-names list. -/
theorem required_names_cex :
    validateToolSchema reqDemoTool = []
    ∧ reqDemoNode.required = ["x"]
    ∧ (lookupProp reqDemoNode.properties "x").isNone = true
    ∧ validateToolSchema topMissingTool = [topReqMsg "t" "b"]
    ∧ topReqMsg "t" "b"
      = "Tool \"t\": required field \"b\" not found in properties" := by
  refine ⟨by decide, by decide, by decide, by decide, rfl⟩

mutual

/-- Any visited node with a non-empty properties map and a required
name missing from it contributes the path-and-available-names error. -/
theorem reqErr_mem_validateProperty :
    ∀ (p : SchemaProp) (path toolName : String) (depth : Nat) (strictMode : Bool)
      (pn : String × SchemaProp), pn ∈ visitedNodes p path depth →
      pn.2.properties.isEmpty = false →
      ∀ f ∈ pn.2.required, (lookupProp pn.2.properties f).isNone = true →
      reqNotFoundMsg toolName pn.1 f (availableOf pn.2.properties)
        ∈ validateProperty p path toolName depth strictMode
  | .mk t d ev props req items addl, path, toolName, depth, strictMode, pn,
      hmem, hne, f, hf, hlook => by
    rw [visitedNodes_unfold] at hmem
    rw [validateProperty_unfold]
    by_cases hd : depth > MAX_SCHEMA_DEPTH
    · rw [if_pos hd] at hmem
      exact absurd hmem (List.not_mem_nil _)
    · rw [if_neg hd] at hmem
      rw [if_neg hd]
      rw [List.mem_cons] at hmem
      rcases hmem with heq | hmem
      · subst heq
        simp only [SchemaProp.properties, SchemaProp.required] at hne hf hlook ⊢
        have hself : reqNotFoundMsg toolName path f (availableOf props)
            ∈ req.filterMap (fun g =>
                if (lookupProp props g).isNone then
                  some (reqNotFoundMsg toolName path g (availableOf props))
                else none) := by
          rw [List.mem_filterMap]
          exact ⟨f, hf, by rw [if_pos hlook]⟩
        have m2 : reqNotFoundMsg toolName path f (availableOf props)
            ∈ (if !props.isEmpty then
                 (req.filterMap (fun g =>
                    if (lookupProp props g).isNone then
                      some (reqNotFoundMsg toolName path g (availableOf props))
                    else none))
                 ++ validateChildProps props path toolName depth strictMode
               else []) := by
          simpa [hne] using List.mem_append_left _ hself
        exact List.mem_append_left _ (List.mem_append_right _ m2)
      · rw [List.mem_append] at hmem
        rcases hmem with hmem | hmem
        · have hchild := reqErr_mem_visitedList props path toolName depth strictMode pn
            hmem hne f hf hlook
          have hpe : props.isEmpty = false := by
            cases props with
            | nil => rw [visitedList_nil] at hmem; exact absurd hmem (List.not_mem_nil _)
            | cons a rest => rfl
          have m2 : reqNotFoundMsg toolName pn.1 f (availableOf pn.2.properties)
              ∈ (if !props.isEmpty then
                   (req.filterMap (fun g =>
                      if (lookupProp props g).isNone then
                        some (reqNotFoundMsg toolName path g (availableOf props))
                      else none))
                   ++ validateChildProps props path toolName depth strictMode
                 else []) := by
            rw [hpe]
            simpa using Or.inr hchild
          exact List.mem_append_left _ (List.mem_append_right _ m2)
        · cases items with
          | none => exact absurd hmem (List.not_mem_nil _)
          | some it =>
            exact List.mem_append_right _
              (reqErr_mem_validateProperty it (path ++ ".items") toolName (depth + 1)
                strictMode pn hmem hne f hf hlook)

theorem reqErr_mem_visitedList :
    ∀ (l : List (String × SchemaProp)) (path toolName : String) (depth : Nat)
      (strictMode : Bool) (pn : String × SchemaProp), pn ∈ visitedList l path depth →
      pn.2.properties.isEmpty = false →
      ∀ f ∈ pn.2.required, (lookupProp pn.2.properties f).isNone = true →
      reqNotFoundMsg toolName pn.1 f (availableOf pn.2.properties)
        ∈ validateChildProps l path toolName depth strictMode
  | [], path, toolName, depth, strictMode, pn, hmem, _, f, _, _ => by
    rw [visitedList_nil] at hmem
    exact absurd hmem (List.not_mem_nil _)
  | (n, p) :: rest, path, toolName, depth, strictMode, pn, hmem, hne, f, hf, hlook => by
    rw [visitedList_cons, List.mem_append] at hmem
    rw [validateChildProps_cons]
    rcases hmem with hmem | hmem
    · exact List.mem_append_left _
        (reqErr_mem_validateProperty p (path ++ "." ++ n) toolName (depth + 1)
          strictMode pn hmem hne f hf hlook)
    · exact List.mem_append_right _
        (reqErr_mem_visitedList rest path toolName depth strictMode pn hmem hne f hf hlook)

end

theorem mem_validateTopProps_of (l : List (String × SchemaProp)) (toolName : String)
    (strictMode : Bool) (e : String × SchemaProp) (he : e ∈ l) (x : String)
    (hx : x ∈ validateProperty e.2 e.1 toolName 0 strictMode) :
    x ∈ validateTopProps l toolName strictMode := by
  induction l with
  | nil => exact absurd he (List.not_mem_nil _)
  | cons a rest ih =>
    obtain ⟨n, p⟩ := a
    rw [List.mem_cons] at he
    show x ∈ validateProperty p n toolName 0 strictMode
        ++ validateTopProps rest toolName strictMode
    rcases he with he | he
    · subst he
      exact List.mem_append_left _ hx
    · exact List.mem_append_right _ (ih he)

/-- Claim C7 (amended): with a non-empty top-level properties map, every
name of the top-level `required` list missing from it yields the
top-level error (which names the missing field but carries no dotted
path and no available-names list), and every *visited nested* node with
a non-empty properties map and a required name missing from it yields
the error naming the node's dotted path and its available property
names.  (A node with an empty properties map is never checked against
its `required` list.) -/
theorem required_names_errors (tool : Tool) (schema : SchemaProp)
    (hparam : tool.parameters = some schema)
    (hne : schema.properties.isEmpty = false) :
    (∀ f ∈ schema.required, (lookupProp schema.properties f).isNone = true →
       topReqMsg tool.name f ∈ validateToolSchema tool)
    ∧ (∀ e ∈ schema.properties, ∀ pn ∈ visitedNodes e.2 e.1 0,
         pn.2.properties.isEmpty = false →
         ∀ f ∈ pn.2.required, (lookupProp pn.2.properties f).isNone = true →
         reqNotFoundMsg tool.name pn.1 f (availableOf pn.2.properties)
           ∈ validateToolSchema tool) := by
  obtain ⟨nm, ds, params, stc⟩ := tool
  obtain ⟨t, d, ev, props, req, items, addl⟩ := schema
  simp only at hparam
  subst hparam
  simp only [SchemaProp.properties, SchemaProp.required] at hne ⊢
  constructor
  · intro f hf hlook
    simp only [validateToolSchema]
    rw [hne]
    simp only [Bool.false_eq_true, if_false]
    have hself : topReqMsg nm f ∈ req.filterMap (fun g =>
        if (lookupProp props g).isNone then some (topReqMsg nm g) else none) := by
      rw [List.mem_filterMap]
      exact ⟨f, hf, by rw [if_pos hlook]⟩
    exact List.mem_append_left _ (List.mem_append_left _ (List.mem_append_right _ hself))
  · intro e he pn hpn hne2 f hf hlook
    simp only [validateToolSchema]
    rw [hne]
    simp only [Bool.false_eq_true, if_false]
    have h1 := reqErr_mem_validateProperty e.2 e.1 nm 0 stc pn hpn hne2 f hf hlook
    exact List.mem_append_right _ (mem_validateTopProps_of props nm stc e he _ h1)

/-- A nested object with a non-empty properties map whose `required`
references the missing name `z`. -/
def nestedMissingNode : SchemaProp :=
  .mk "object" "" [] [("y", .mk "string" "" [] [] [] none none)] ["z"] none none

def nestedMissingTool : Tool :=
  { name := "t", description := "d",
    parameters := some (.mk "object" "" [] [("a", nestedMissingNode)] [] none none),
    strict := false }

/-- Claim C7 (amended) witness: the nested conjunct applied to a
concrete tool; the error names the dotted path `a` and the available
name `y`. -/
theorem required_names_errors_witness :
    reqNotFoundMsg "t" "a" "z" "y" ∈ validateToolSchema nestedMissingTool := by
  have h := (required_names_errors nestedMissingTool
      (.mk "object" "" [] [("a", nestedMissingNode)] [] none none) rfl (by decide)).2
      ("a", nestedMissingNode) (List.mem_cons_self _ _)
      ("a", nestedMissingNode) ?_ (by decide) "z" (by decide) (by decide)
  · exact h
  · exact List.mem_cons_self _ _

/-! ## Theorems: depth limiting (claim C8) -/

theorem mem_validateChildProps_of (l : List (String × SchemaProp)) (path toolName : String)
    (depth : Nat) (strictMode : Bool) (e : String × SchemaProp) (he : e ∈ l) (x : String)
    (hx : x ∈ validateProperty e.2 (path ++ "." ++ e.1) toolName (depth + 1) strictMode) :
    x ∈ validateChildProps l path toolName depth strictMode := by
  induction l with
  | nil => exact absurd he (List.not_mem_nil _)
  | cons a rest ih =>
    obtain ⟨n, p⟩ := a
    rw [List.mem_cons] at he
    rw [validateChildProps_cons]
    rcases he with he | he
    · subst he
      exact List.mem_append_left _ hx
    · exact List.mem_append_right _ (ih he)

theorem heightList_attained (l : List (String × SchemaProp)) (h : heightList l ≠ 0) :
    ∃ e ∈ l, heightOf e.2 = heightList l := by
  induction l with
  | nil => rw [heightList_nil] at h; exact absurd rfl h
  | cons a rest ih =>
    obtain ⟨n, p⟩ := a
    rw [heightList_cons] at h ⊢
    by_cases hc : heightList rest ≤ heightOf p
    · exact ⟨(n, p), List.mem_cons_self _ _, (max_eq_left hc).symm⟩
    · push_neg at hc
      have h2 : heightList rest ≠ 0 := by omega
      obtain ⟨e, he, heq⟩ := ih h2
      exact ⟨e, List.mem_cons_of_mem _ he,
        by rw [heq]; exact (max_eq_right (le_of_lt hc)).symm⟩

/-- A subtree taller than the remaining depth budget always produces a
depth-exceeded error somewhere inside the traversal. -/
theorem depthErr_of_tall :
    ∀ (p : SchemaProp) (path toolName : String) (depth : Nat) (strictMode : Bool),
      MAX_SCHEMA_DEPTH + 1 < depth + heightOf p →
      ∃ path2, depthErrMsg toolName path2
        ∈ validateProperty p path toolName depth strictMode
  | .mk t d ev props req items addl, path, toolName, depth, strictMode, hh => by
    by_cases hd : depth > MAX_SCHEMA_DEPTH
    · refine ⟨path, ?_⟩
      rw [validateProperty_unfold, if_pos hd]
      exact List.mem_singleton.mpr rfl
    · rw [heightOf_unfold] at hh
      rcases max_choice (heightList props) (heightItems items) with hmc | hmc <;>
        rw [hmc] at hh
      · have hnz : heightList props ≠ 0 := by omega
        obtain ⟨e, he, heq⟩ := heightList_attained props hnz
        obtain ⟨n, c⟩ := e
        simp only at heq
        obtain ⟨p2, hp2⟩ := depthErr_of_tall c (path ++ "." ++ n) toolName (depth + 1)
          strictMode (by omega)
        refine ⟨p2, ?_⟩
        rw [validateProperty_unfold, if_neg hd]
        have hpe : props.isEmpty = false := by
          cases props with
          | nil => exact absurd he (List.not_mem_nil _)
          | cons a rest => rfl
        have hchild := mem_validateChildProps_of props path toolName depth strictMode
          (n, c) he _ hp2
        have m2 : depthErrMsg toolName p2
            ∈ (if !props.isEmpty then
                 (req.filterMap (fun g =>
                    if (lookupProp props g).isNone then
                      some (reqNotFoundMsg toolName path g (availableOf props))
                    else none))
                 ++ validateChildProps props path toolName depth strictMode
               else []) := by
          rw [hpe]
          simpa using Or.inr hchild
        exact List.mem_append_left _ (List.mem_append_right _ m2)
      · cases items with
        | none =>
          rw [heightItems_none] at hh
          exact absurd hh (by omega)
        | some it =>
          rw [heightItems_some] at hh
          obtain ⟨p2, hp2⟩ := depthErr_of_tall it (path ++ ".items") toolName (depth + 1)
            strictMode (by omega)
          refine ⟨p2, ?_⟩
          rw [validateProperty_unfold, if_neg hd]
          exact List.mem_append_right _ hp2
  termination_by p => heightOf p
  decreasing_by
  all_goals simp_all only [heightOf_unfold, heightItems_some, heightItems_none]
  all_goals omega

/-- Claim C8: the validator is a total function (it terminates on every
schema by construction of this embedding, mirroring the source's depth
guard), and a tool schema containing a top-level property whose subtree
is taller than the depth limit allows (nested deeper than
`MAX_SCHEMA_DEPTH`) yields a depth-exceeded entry in the returned error
list rather than unbounded recursion or an exception. -/
theorem depth_limit_error (tool : Tool) (schema : SchemaProp)
    (hparam : tool.parameters = some schema) (e : String × SchemaProp)
    (he : e ∈ schema.properties) (hh : MAX_SCHEMA_DEPTH + 1 < heightOf e.2) :
    ∃ path2, depthErrMsg tool.name path2 ∈ validateToolSchema tool := by
  obtain ⟨nm, ds, params, stc⟩ := tool
  obtain ⟨t, d, ev, props, req, items, addl⟩ := schema
  simp only at hparam
  subst hparam
  simp only [SchemaProp.properties] at he
  obtain ⟨p2, hp2⟩ := depthErr_of_tall e.2 e.1 nm 0 stc (by omega)
  refine ⟨p2, ?_⟩
  simp only [validateToolSchema]
  have hpe : props.isEmpty = false := by
    cases props with
    | nil => exact absurd he (List.not_mem_nil _)
    | cons a rest => rfl
  rw [hpe]
  simp only [Bool.false_eq_true, if_false]
  exact List.mem_append_right _ (mem_validateTopProps_of props nm stc e he _ hp2)

/-- A chain of nested objects: `deepChain n` has height `n + 1`. -/
def deepChain : Nat → SchemaProp
  | 0 => .mk "string" "" [] [] [] none none
  | n + 1 => .mk "object" "" [] [("c", deepChain n)] ["c"] none (some false)

def deepTool : Tool :=
  { name := "t", description := "d",
    parameters := some (.mk "object" "" [] [("a", deepChain 11)] [] none none),
    strict := false }

/-- Claim C8 witness: the theorem applied to a 12-level chain. -/
theorem depth_limit_error_witness :
    ∃ path2, depthErrMsg "t" path2 ∈ validateToolSchema deepTool :=
  depth_limit_error deepTool (.mk "object" "" [] [("a", deepChain 11)] [] none none)
    rfl ("a", deepChain 11) (List.mem_cons_self _ _) (by decide)

end Repkit
